import Mathlib

set_option maxHeartbeats 1000000

/-!
Shallow embedding of the schema-normalization and financial-metrics pipeline
of `src/streamlit_app.py` (a paid-media budget dashboard).

Modelling conventions:
* Python `Decimal` literals are represented exactly as a coefficient and a
  decimal exponent (`Int × Nat`, value = coefficient / 10 ^ exponent), which
  is `Decimal`'s own representation; derived `Decimal` arithmetic
  (multiply, divide, quantize) is modelled on exact rationals (`ℚ`) — the
  quantities the code manipulates stay far inside `Decimal`'s 28-digit
  context, where those operations are exact.
* Integer cent amounts are `Int`; calendar dates are integer day numbers,
  so pandas `(end - start).dt.days` is plain subtraction.
* Fallible parses (`_to_decimal`, `required_daily`, ...) return `Option`.
* Python `str.strip` / `str.lower` are modelled on `List Char` with
  `Char.isWhitespace` and an ASCII lower-case map, matching the ASCII
  behaviour of the source data.
-/

namespace StreamlitApp

/-- ASCII lower-casing of one character (codes 65–90 shift to 97–122), the
fragment of Python `str.lower` exercised by the source (column names and
channel strings are ASCII). -/
def lowerChar (c : Char) : Char :=
  if 65 ≤ c.toNat ∧ c.toNat ≤ 90 then Char.ofNat (c.toNat + 32) else c

/-- Python `s.lower()` on a whole string. -/
def lowerStr (s : String) : String := ⟨s.data.map lowerChar⟩

/-- Python `s.strip()` on a character list: drop whitespace from both ends. -/
def pyStripChars (l : List Char) : List Char :=
  (l.dropWhile Char.isWhitespace).rdropWhile Char.isWhitespace

/-- Python `s.strip()` on a string. -/
def pyStrip (s : String) : String := ⟨pyStripChars s.data⟩

/-- Python `str(c).strip().lower()` as used on headers and cells in
`drop_duplicate_header_rows` (src lines 188 and 194). -/
def pyStripLower (s : String) : String := ⟨(pyStripChars s.data).map lowerChar⟩

/-- Does `pat` occur at the head of `l`? (helper for substring search). -/
def subAt : List Char → List Char → Bool
  | [], _ => true
  | _ :: _, [] => false
  | p :: ps, c :: cs => p == c && subAt ps cs

/-- Does `pat` occur anywhere in `l`? (Python `pat in s`, and pandas
`Series.str.contains` with a literal or literal-alternation pattern). -/
def hasSub (pat : List Char) : List Char → Bool
  | [] => pat.isEmpty
  | c :: cs => subAt pat (c :: cs) || hasSub pat cs

/-- String-level substring test: `pat in s`. -/
def strHasSub (s pat : String) : Bool := hasSub pat.data s.data

/-- Python `Decimal.quantize(Decimal(1), rounding=ROUND_HALF_UP)` on an exact
rational: round to an integer, ties away from zero. -/
def quantizeHalfUp (q : ℚ) : Int :=
  if 0 ≤ q then ⌊q + 1 / 2⌋ else -⌊-q + 1 / 2⌋

/-- Model of `_round2` (src lines 61–63): quantize to two decimals with
`ROUND_HALF_UP`, modelled as the exact rational value of the result. -/
def round2 (q : ℚ) : ℚ := (quantizeHalfUp (q * 100) : ℚ) / 100

/-- Characters kept by `re.sub(r"[^\d\.\-]", "", s)` (src line 77). -/
def isMoneyChar (c : Char) : Bool := c.isDigit || c == '.' || c == '-'

/-- Base-10 value of a digit-character list. -/
def digitsToNat (l : List Char) : Nat :=
  l.foldl (fun a c => a * 10 + (c.toNat - 48)) 0

/-- The exact rational value of a parsed decimal
(coefficient, decimal exponent). -/
def decVal (d : Int × Nat) : ℚ := (d.1 : ℚ) / (10 : ℚ) ^ d.2

/-- The fragment of the Python `Decimal(s)` literal grammar reachable after
`_to_decimal`'s character strip: digit runs with at most one dot and at least
one digit; anything else raises `InvalidOperation`, modelled as `none`.
Returns `Decimal`'s own coefficient/exponent representation. -/
def parseUnsignedDec (l : List Char) : Option (Int × Nat) :=
  let intPart := l.takeWhile (fun c => c != '.')
  let rest := l.dropWhile (fun c => c != '.')
  if intPart.all Char.isDigit then
    match rest with
    | [] => if intPart.isEmpty then none else some ((digitsToNat intPart : Int), 0)
    | _ :: frac =>
      if frac.all Char.isDigit && !(intPart.isEmpty && frac.isEmpty) then
        some ((digitsToNat intPart * 10 ^ frac.length + digitsToNat frac : Nat), frac.length)
      else none
  else none

/-- A signed `Decimal` literal: optional leading minus then an unsigned
decimal. -/
def parseDecChars : List Char → Option (Int × Nat)
  | '-' :: rest => (parseUnsignedDec rest).map (fun d => (-d.1, d.2))
  | l => parseUnsignedDec l

/-- Model of `_to_decimal` (src lines 66–83) on a string cell: strip, remove spaces,
swap a decimal comma to a dot when no dot is present, strip everything that
is not a digit, dot or minus, reject the degenerate leftovers, then parse
as an exact decimal. -/
def to_decimal (v : String) : Option (Int × Nat) :=
  let t := pyStripChars v.data
  if t.isEmpty then none
  else
    let s0 := t.filter (fun c => c != ' ')
    let s1 := if s0.contains ',' && !s0.contains '.' then
                s0.map (fun c => if c == ',' then '.' else c)
              else s0
    let s2 := s1.filter isMoneyChar
    match s2 with
    | [] => none
    | ['-'] => none
    | ['.'] => none
    | ['-', '.'] => none
    | l => parseDecChars l

/-- Value of `int(_round2(d) * 100)` on a parsed decimal `d = m / 10^e`: the integer
nearest `m * 100 / 10^e`, ties away from zero (`ROUND_HALF_UP`), computed
with integer floor division (`Int./` is floor division for a positive
divisor). -/
def decCents (d : Int × Nat) : Int :=
  let a : Int := d.1 * 100
  let b : Int := (10 : Int) ^ d.2
  if 0 ≤ a then (2 * a + b) / (2 * b) else -((2 * (-a) + b) / (2 * b))

/-- One element of `series_to_cents` (src lines 85–97): parse, round to two
decimals half-up, scale to integer cents; unparseable cells become `none`. -/
def series_to_cents_one (v : String) : Option Int :=
  (to_decimal v).map decCents

/-- A cents column as built in `compute_financials` (src lines 573–574) and
`build_fact_table` (src lines 1052–1053): `series_to_cents(col).fillna(0)`. -/
def centsField (v : String) : Int := (series_to_cents_one v).getD 0

/-- Number of cells of `row` that case-insensitively equal their own column
header (src lines 190–196); headers that strip to the empty string never
count.  Cells are aligned with headers positionally (`row.get(c, "")`). -/
def countHeaderMatches (cols row : List String) : Nat :=
  ((cols.zip row).filter
    (fun p => pyStripLower p.2 == pyStripLower p.1 && pyStripLower p.1 != "")).length

/-- Model of `is_header_row` (src lines 190–198): at least `max(2, int(len(cols)*0.5))`
cells match their header; `int(n * 0.5)` is exact floor halving. -/
def is_header_row (cols row : List String) : Bool :=
  decide (countHeaderMatches cols row ≥ max 2 (cols.length / 2))

/-- Model of `drop_duplicate_header_rows` (src lines 179–201): drop every row the
majority-match test flags. -/
def drop_duplicate_header_rows (cols : List String) (rows : List (List String)) :
    List (List String) :=
  rows.filter (fun r => !is_header_row cols r)

/-- Model of `map_platform` (src lines 977–983): a default of `"Other"` then three
pandas masked assignments applied in sequence, so a later mask overwrites an
earlier one.  The regex `"meta|facebook|instagram"` is a literal
alternation, i.e. an any-of-substrings test. -/
def map_platform (s : String) : String :=
  let c := lowerStr s
  let p1 := if strHasSub c "linkedin" then "LinkedIn" else "Other"
  let p2 := if strHasSub c "google" then "Google" else p1
  if strHasSub c "meta" || strHasSub c "facebook" || strHasSub c "instagram" then "Meta" else p2

/-- One delimiter match of `r"\s*/\s*|\s*\|\s*|\s+I\s+"` (src line 963)
starting at the head of `l`: optional whitespace then `/` or `|` then
optional whitespace, or mandatory whitespace around a literal `I`.  Returns
the remaining input after the match.  The alternatives are mutually
exclusive at any position, so regex alternation order does not matter, and
backtracking over `\s*`/`\s+` cannot succeed because whitespace is disjoint
from `/`, `|` and `I`. -/
def delimRest (l : List Char) : Option (List Char) :=
  let ws := l.takeWhile Char.isWhitespace
  match l.dropWhile Char.isWhitespace with
  | '/' :: rest => some (rest.dropWhile Char.isWhitespace)
  | '|' :: rest => some (rest.dropWhile Char.isWhitespace)
  | 'I' :: rest =>
    match ws, rest with
    | _ :: _, c :: _ =>
      if c.isWhitespace then some (rest.dropWhile Char.isWhitespace) else none
    | _, _ => none
  | _ => none

/-- The `re.split` scan, left to right: cut a segment at every delimiter match.
`fuel` bounds recursion depth; every step consumes at least one input
character, so `fuel = length + 1` never runs out. -/
def splitSegsF : Nat → List Char → List Char → List String
  | 0, rest, cur => [⟨cur.reverse ++ rest⟩]
  | _ + 1, [], cur => [⟨cur.reverse⟩]
  | fuel + 1, c :: cs, cur =>
    match delimRest (c :: cs) with
    | some rest => ⟨cur.reverse⟩ :: splitSegsF fuel rest []
    | none => splitSegsF fuel cs (c :: cur)

/-- Pandas `pd.Series.str.split(r"\s*/\s*|\s*\|\s*|\s+I\s+")` on one string. -/
def splitSegs (s : String) : List String :=
  splitSegsF (s.data.length + 1) s.data []

/-- The cell cleanup of src line 962: a whole-cell value `"nan"` (what
`astype(str)` makes of a missing value) is replaced by the empty string. -/
def cleanGroupPath (s : String) : String := if s = "nan" then "" else s

/-- Model of `split_group_path` (src lines 954–974) on one string: clean the
`astype(str)` artifact, split on the delimiter pattern, pad to at least
three segments with `""`, and take segments 0, 1, 2 as
Program / Industry / Channel. -/
def split_group_path (s : String) : String × String × String :=
  let segs := splitSegs (cleanGroupPath s)
  (segs.getD 0 "", segs.getD 1 "", segs.getD 2 "")

/-- Python `\w` (ASCII fragment): letters, digits, underscore. -/
def isWordChar (c : Char) : Bool := c.isAlphanum || c == '_'

/-- Python `s.replace("→", "to")` (src line 120) on a character list. -/
def replaceArrow : List Char → List Char
  | [] => []
  | c :: cs => if c == '→' then 't' :: 'o' :: replaceArrow cs else c :: replaceArrow cs

/-- Model of `re.sub(r"[^\w]+", "_", s)` (src line 121): each maximal run of non-word
characters becomes a single underscore; the boolean records whether the scan
is inside such a run. -/
def collapseNW : Bool → List Char → List Char
  | _, [] => []
  | false, c :: cs =>
    if isWordChar c then c :: collapseNW false cs else '_' :: collapseNW true cs
  | true, c :: cs =>
    if isWordChar c then c :: collapseNW false cs else collapseNW true cs

/-- Model of `re.sub(r"_+", "_", s)` (src line 122): collapse runs of underscores. -/
def collapseU : Bool → List Char → List Char
  | _, [] => []
  | false, c :: cs =>
    if c = '_' then '_' :: collapseU true cs else c :: collapseU false cs
  | true, c :: cs =>
    if c = '_' then collapseU true cs else c :: collapseU false cs

/-- Python `s.strip("_")` (src line 122): drop underscores from both ends. -/
def stripUnderscores (l : List Char) : List Char :=
  (l.dropWhile (fun c => c == '_')).rdropWhile (fun c => c == '_')

/-- The list-level pipeline of `normalize_colname` (src lines 118–123):
strip, lower-case, read the right-arrow glyph as "to", squash non-word runs
to `_`, squash `_` runs, trim `_` from the ends. -/
def normChars (l : List Char) : List Char :=
  stripUnderscores (collapseU false (collapseNW false
    (replaceArrow ((pyStripChars l).map lowerChar))))

/-- Model of `normalize_colname` (src lines 118–123). -/
def normalize_colname (s : String) : String := ⟨normChars s.data⟩

/-- Day-window quantities computed by `compute_financials`
(src lines 581–599) and `compute_campaign_metrics_from_cents`
(src lines 780–794); all pandas `.clip(lower=0)` calls become `max 0`.
Dates are integer day numbers; `today` is the normalized current day. -/
structure DayMath where
  total_days : Int
  active_days_total : Int
  elapsed_days : Int
  elapsed_active_days : Int
  remaining_active_days : Int
deriving Repr, DecidableEq

/-- The day math of src lines 569–570 and 581–599: paused-day inputs are
clipped at 0 (`safe_int(...).clip(lower=0)`), and each derived quantity is
clipped at 0 exactly as in the source. -/
def computeDayMath (start_d end_d today pdt0 pdd0 : Int) : DayMath :=
  let pdt := max 0 pdt0
  let pdd := max 0 pdd0
  let total_days := max 0 (end_d - start_d + 1)
  let active := max 0 (total_days - pdt)
  let elapsed_days := max 0 (min today end_d - start_d + 1)
  let elapsed_active := max 0 (elapsed_days - pdd)
  ⟨total_days, active, elapsed_days, elapsed_active, max 0 (active - elapsed_active)⟩

/-- Model of `remaining_budget_cents` (src line 577): clipped difference. -/
def remaining_budget_cents (total spent : Int) : Int := max 0 (total - spent)

/-- Model of `_expected_spend_to_date_cents` (src lines 683–693 and 797–804): 0 when
no active days, else one `ROUND_HALF_UP` quantize of the exact prorated
ratio `total * elapsed / active`. -/
def expected_spend_to_date_cents (total elapsed ad : Int) : Int :=
  if ad ≤ 0 then 0 else quantizeHalfUp ((total : ℚ) * (elapsed : ℚ) / (ad : ℚ))

/-- Model of `_required_daily_str` (src lines 603–609 and 809–815), modelled by value:
`None` when no remaining active days, else `remaining / 100 / days` rounded
half-up to two decimals.  The source formats the result with `f"{...:.2f}"`,
which is value-preserving on a two-decimal `Decimal`. -/
def required_daily (cents rad : Int) : Option ℚ :=
  if rad ≤ 0 then none else some (round2 ((cents : ℚ) / 100 / (rad : ℚ)))

/-- Model of `MIN_DAILY_BY_CHANNEL` (src lines 26–28): exact-key lookup. -/
def MIN_DAILY_BY_CHANNEL (channel : String) : Option ℚ :=
  if channel = "LinkedIn" then some 10 else none

/-- Model of `_min_daily_violation` (src lines 619–629 and 825–835): false when the
channel has no floor or `required_daily` is absent, else compare the
(re-parsed, value-preserving) required daily against the floor. -/
def min_daily_violation (channel : String) (req : Option ℚ) : Bool :=
  match MIN_DAILY_BY_CHANNEL channel, req with
  | some md, some r => decide (r < md)
  | _, _ => false

/-- A leaf row as consumed by `aggregate_to_campaign` (src lines 708–754):
the four grouping columns, the four money-cents columns, dates, paused-day
fields and the optional performance inputs. -/
structure LeafRow where
  Program : String
  Industry : String
  Channel : String
  Campaign : String
  total_budget_cents : Int
  spent_to_date_cents : Int
  remaining_budget_cents : Int
  expected_spend_to_date_cents : Int
  start_date : Int
  end_date : Int
  paused_days_total : Int
  paused_days_to_date : Int
  CPM : Option ℚ
  CTR : Option ℚ
  CPL : Option ℚ
deriving Repr, DecidableEq

/-- A campaign-level aggregate row (the merged output of src line 753). -/
structure AggRow where
  Program : String
  Industry : String
  Channel : String
  Campaign : String
  total_budget_cents : Int
  spent_to_date_cents : Int
  remaining_budget_cents : Int
  expected_spend_to_date_cents : Int
  start_date : Int
  end_date : Int
  paused_days_total : Int
  paused_days_to_date : Int
  CPM : Option ℚ
  CTR : Option ℚ
  CPL : Option ℚ
deriving Repr, DecidableEq

/-- The `groupby` key (src line 713). -/
def groupKey (r : LeafRow) : String × String × String × String :=
  (r.Program, r.Industry, r.Channel, r.Campaign)

/-- Minimum of a projected column over a (nonempty) group. -/
def minOver (grp : List LeafRow) (f : LeafRow → Int) : Int :=
  match grp.map f with
  | [] => 0
  | x :: xs => xs.foldl min x

/-- Maximum of a projected column over a (nonempty) group. -/
def maxOver (grp : List LeafRow) (f : LeafRow → Int) : Int :=
  match grp.map f with
  | [] => 0
  | x :: xs => xs.foldl max x

/-- Model of `_consistent_or_none` (src lines 742–745): keep a performance value only
when all present values agree, else blank.  Only the number of distinct
present values matters, so the order `dict.fromkeys` preserves is
irrelevant. -/
def consistent_or_none (l : List (Option ℚ)) : Option ℚ :=
  match (l.filterMap id).dedup with
  | [v] => some v
  | _ => none

/-- One aggregate row of `aggregate_to_campaign` for group key `k`: exact
integer sums of the four money columns, min/max of the dates, max of the
paused-day fields, consistent-or-none merge of CPM/CTR/CPL. -/
def mkAggRow (rows : List LeafRow) (k : String × String × String × String) : AggRow :=
  let grp := rows.filter (fun r => decide (groupKey r = k))
  { Program := k.1
    Industry := k.2.1
    Channel := k.2.2.1
    Campaign := k.2.2.2
    total_budget_cents := (grp.map (fun r => r.total_budget_cents)).sum
    spent_to_date_cents := (grp.map (fun r => r.spent_to_date_cents)).sum
    remaining_budget_cents := (grp.map (fun r => r.remaining_budget_cents)).sum
    expected_spend_to_date_cents := (grp.map (fun r => r.expected_spend_to_date_cents)).sum
    start_date := minOver grp (fun r => r.start_date)
    end_date := maxOver grp (fun r => r.end_date)
    paused_days_total := maxOver grp (fun r => r.paused_days_total)
    paused_days_to_date := maxOver grp (fun r => r.paused_days_to_date)
    CPM := consistent_or_none (grp.map (fun r => r.CPM))
    CTR := consistent_or_none (grp.map (fun r => r.CTR))
    CPL := consistent_or_none (grp.map (fun r => r.CPL)) }

/-- Model of `aggregate_to_campaign` (src lines 708–754): one output row per distinct
group key.  (pandas emits groups in sorted key order; the claimed sum
invariants are per-row and independent of row order, so the embedding uses
first-appearance order of keys.) -/
def aggregate_to_campaign (rows : List LeafRow) : List AggRow :=
  ((rows.map groupKey).dedup).map (mkAggRow rows)

/-- The spec's round-half-up on an exact rational: nearest integer, ties away
from zero (the semantics of `decimal.ROUND_HALF_UP`). -/
def specRoundHalfUp (q : ℚ) : Int :=
  if 0 ≤ q then ⌊q + 1 / 2⌋ else ⌈q - 1 / 2⌉

/-- The spec's two-decimal round-half-up by value. -/
def spec_round2 (q : ℚ) : ℚ := (specRoundHalfUp (q * 100) : ℚ) / 100

/-- Spec-side single-rounding prorate formula:
`round_half_up(total_budget_cents * elapsed_active_days / active_days_total)`,
0 when `active_days_total <= 0`. -/
def spec_expected_spend (total elapsed ad : Int) : Int :=
  if ad ≤ 0 then 0 else specRoundHalfUp ((total : ℚ) * (elapsed : ℚ) / (ad : ℚ))

/-- Adjacent characters are not both underscores (the shape invariant of
`re.sub(r"_+", "_", ...)` output). -/
def notBothUnd (a b : Char) : Prop := ¬(a = '_' ∧ b = '_')

/-- Concrete leaf rows for the C1 witness: two rows in one group, one in
another. -/
def exampleLeafRows : List LeafRow :=
  [⟨"a", "b", "c", "d", 100, 40, 60, 50, 0, 10, 0, 0, none, none, none⟩,
   ⟨"a", "b", "c", "d", 200, 10, 190, 70, 2, 8, 1, 0, none, none, none⟩,
   ⟨"x", "b", "c", "d", 7, 1, 6, 3, 0, 5, 0, 0, none, none, none⟩]

/-- The aggregate row of the first group of `exampleLeafRows`. -/
def exampleAggRow : AggRow :=
  ⟨"a", "b", "c", "d", 300, 50, 250, 120, 0, 10, 1, 0, none, none, none⟩

end StreamlitApp

namespace StreamlitApp

example : series_to_cents_one "1,234.56" = some 123456 := by decide
example : series_to_cents_one "1234.56" = some 123456 := by decide
example : series_to_cents_one "1 234.56" = some 123456 := by decide
example : series_to_cents_one "" = none := by decide
example : series_to_cents_one "-" = none := by decide
example : series_to_cents_one "abc" = none := by decide
example : centsField "-5.00" = -500 := by decide
example : series_to_cents_one "0.125" = some 13 := by decide
example : series_to_cents_one "1 234,56" = some 123456 := by decide
example : to_decimal "12.34" = some (1234, 2) := by decide

example : map_platform "linkedin google" = "Google" := by decide
example : map_platform "LinkedIn Awareness" = "LinkedIn" := by decide
example : map_platform "google facebook" = "Meta" := by decide
example : map_platform "tv" = "Other" := by decide

example : split_group_path "BV / Nordcloud / AWS / Traffic" = ("BV", "Nordcloud", "AWS") := by
  decide
example : split_group_path "AO | General Funnel | Awareness" =
    ("AO", "General Funnel", "Awareness") := by decide
example : split_group_path "BV I DECERNO I Awareness I 2025" =
    ("BV", "DECERNO", "Awareness") := by decide
example : split_group_path "AO" = ("AO", "", "") := by decide
example : split_group_path "" = ("", "", "") := by decide
example : split_group_path "Izzy Iron" = ("Izzy Iron", "", "") := by decide

example : normalize_colname "  Group → Campaign " = "group_to_campaign" := by decide
example : normalize_colname "Current Budget (SEK)!!" = "current_budget_sek" := by decide
example : normalize_colname "group_to_campaign" = "group_to_campaign" := by decide

example : is_header_row ["Name", "Budget", "Spend"] ["name", "BUDGET", "7"] = true := by decide
example : is_header_row ["Name", "Budget", "Spend"] ["name", "3", "7"] = false := by decide
example : drop_duplicate_header_rows ["a", "b", "c", "d", "e"] [["a", "b", "x", "y", "z"]] =
    [] := by decide

/-! ### Helper lemmas shared across the development -/

/-- Applying `Char.ofNat` to a valid scalar value round-trips through `toNat`. -/
theorem toNat_ofNat_valid {n : Nat} (h : n.isValidChar) : (Char.ofNat n).toNat = n := by
  unfold Char.ofNat
  rw [dif_pos h]
  rfl

/-- ASCII lower-casing is idempotent. -/
theorem lowerChar_lowerChar (c : Char) : lowerChar (lowerChar c) = lowerChar c := by
  unfold lowerChar
  by_cases h : 65 ≤ c.toNat ∧ c.toNat ≤ 90
  · rw [if_pos h]
    have hv : (c.toNat + 32).isValidChar := Or.inl (by omega)
    rw [if_neg]
    rw [toNat_ofNat_valid hv]
    omega
  · rw [if_neg h, if_neg h]

/-- The code's quantize agrees with the spec's round-half-up. -/
theorem quantizeHalfUp_eq_spec (q : ℚ) : quantizeHalfUp q = specRoundHalfUp q := by
  unfold quantizeHalfUp specRoundHalfUp
  split_ifs with h
  · rfl
  · rw [show q - 1 / 2 = -(-q + 1 / 2) by ring, Int.ceil_neg]

/-- Floor of a shifted integer ratio as one integer floor division. -/
theorem floor_add_half (n : ℤ) (e : Nat) :
    ⌊(n : ℚ) / (10 : ℚ) ^ e + 1 / 2⌋ = (2 * n + 10 ^ e) / (2 * 10 ^ e) := by
  have hne : ((10 : ℚ) ^ e) ≠ 0 := by positivity
  have h1 : ((n : ℚ) / (10 : ℚ) ^ e + 1 / 2) =
      ((2 * n + 10 ^ e : ℤ) : ℚ) / ((2 * 10 ^ e : ℕ) : ℚ) := by
    push_cast
    field_simp
    ring
  rw [h1, Rat.floor_intCast_div_natCast]
  congr 1
  push_cast
  ring

/-- The integer-only cents computation realizes `round2` then scale-by-100 on
the exact value of the parsed decimal. -/
theorem decCents_eq_quantize (d : Int × Nat) :
    decCents d = quantizeHalfUp (decVal d * 100) := by
  obtain ⟨m, e⟩ := d
  have hbq : (0 : ℚ) < (10 : ℚ) ^ e := by positivity
  have hval : decVal (m, e) * 100 = ((m * 100 : ℤ) : ℚ) / (10 : ℚ) ^ e := by
    unfold decVal
    push_cast
    ring
  unfold decCents quantizeHalfUp
  simp only [hval]
  by_cases hm : 0 ≤ m * 100
  · rw [if_pos hm, if_pos (div_nonneg (by exact_mod_cast hm) hbq.le), floor_add_half]
  · have hmq : ((m * 100 : ℤ) : ℚ) < 0 := by exact_mod_cast lt_of_not_le hm
    rw [if_neg hm, if_neg (not_le.mpr (div_neg_of_neg_of_pos hmq hbq))]
    rw [show -(((m * 100 : ℤ) : ℚ) / (10 : ℚ) ^ e) = ((-(m * 100) : ℤ) : ℚ) / (10 : ℚ) ^ e by
      push_cast; ring]
    rw [floor_add_half]

/-! ### Claims -/

/-- C2 (counterexample): the claim says a string containing both "linkedin"
and "google" maps to "LinkedIn"; the code maps it to "Google", because the
Google mask is assigned after the LinkedIn mask and overwrites it. -/
theorem C2_counterexample :
    map_platform "linkedin google" = "Google" ∧
    map_platform "linkedin google" ≠ "LinkedIn" := by
  constructor
  · decide
  · decide

/-- C2 (amended): platform inference applies the LinkedIn, Google, Meta
masks in that order with later assignments overwriting earlier ones, so the
effective priority is first-match-wins in the order Meta, Google, LinkedIn
(last-match-wins with respect to the claimed order); in particular a string
containing both "linkedin" and "google" maps to "Google". -/
theorem C2_amended_last_match_wins (s : String) :
    map_platform s =
      (if strHasSub (lowerStr s) "meta" || strHasSub (lowerStr s) "facebook" ||
          strHasSub (lowerStr s) "instagram" then "Meta"
       else if strHasSub (lowerStr s) "google" then "Google"
       else if strHasSub (lowerStr s) "linkedin" then "LinkedIn"
       else "Other") := by
  unfold map_platform
  split_ifs <;> simp_all

/-- C3 (counterexample): with 5 columns, a row matching exactly 2 of its
header names is below the claimed threshold `max(2, ceil(5/2)) = 3` and so
should be kept per the claim, yet the code drops it (its threshold is
`max(2, int(5*0.5)) = 2`). -/
theorem C3_counterexample :
    countHeaderMatches ["a", "b", "c", "d", "e"] ["a", "b", "x", "y", "z"] = 2 ∧
    2 < max 2 ((5 + 1) / 2) ∧
    drop_duplicate_header_rows ["a", "b", "c", "d", "e"] [["a", "b", "x", "y", "z"]] = [] := by
  refine ⟨by decide, by decide, by decide⟩

/-- C3 (amended): a data row is dropped as a repeated header exactly when at
least `max(2, floor(columns/2))` of its cells case-insensitively equal their
own column's header name; rows with fewer matching cells are kept. -/
theorem C3_amended_floor_threshold (cols : List String) (rows : List (List String))
    (r : List String) :
    r ∈ drop_duplicate_header_rows cols rows ↔
      r ∈ rows ∧ countHeaderMatches cols r < max 2 (cols.length / 2) := by
  simp [drop_duplicate_header_rows, List.mem_filter, is_header_row, Nat.not_le]

/-- C4 (counterexample): a money cell with a leading minus sign produces a
negative `..._cents` value in the canonical row — the code never clamps the
parsed budget/spend cents at zero (only `remaining_budget_cents` is
clipped). -/
theorem C4_counterexample : centsField "-5.00" = -500 ∧ centsField "-5.00" < 0 := by
  refine ⟨by decide, by decide⟩

/-- C4 (amended): `total_budget_cents` and `spent_to_date_cents` default to
0 when the raw cell is unparseable and are non-negative whenever the parsed
raw value is non-negative; a money string with a leading minus sign yields
negative cents, so the non-negativity invariant holds only for non-negative
inputs. -/
theorem C4_amended_nonneg_for_nonneg_inputs (v : String) :
    (to_decimal v = none → centsField v = 0) ∧
    (∀ d : Int × Nat, to_decimal v = some d → 0 ≤ decVal d → 0 ≤ centsField v) := by
  constructor
  · intro h
    simp [centsField, series_to_cents_one, h]
  · intro d hd hq
    simp only [centsField, series_to_cents_one, hd, Option.map_some', Option.getD_some]
    rw [decCents_eq_quantize]
    have h100 : 0 ≤ decVal d * 100 := mul_nonneg hq (by norm_num)
    unfold quantizeHalfUp
    rw [if_pos h100]
    exact Int.le_floor.mpr (by push_cast; linarith)

/-- C4 (witness): a concrete non-negative money cell, where the theorem
yields a non-negative cents value. -/
theorem C4_witness :
    to_decimal "12.34" = some (1234, 2) ∧ (0 : ℚ) ≤ decVal (1234, 2) ∧
    0 ≤ centsField "12.34" :=
  ⟨by decide, by norm_num [decVal],
    (C4_amended_nonneg_for_nonneg_inputs "12.34").2 (1234, 2) (by decide)
      (by norm_num [decVal])⟩

/-- C5: money parsing sends "1,234.56", "1234.56" and "1 234.56" to exactly
123456 cents, sends "", "-" and "abc" to the absent value (0 at the field
level), is total (never an exception), and the cents computation is exactly
round-half-up to two decimals then scale by 100 on the parsed value. -/
theorem C5_money_round_trip :
    series_to_cents_one "1,234.56" = some 123456 ∧
    series_to_cents_one "1234.56" = some 123456 ∧
    series_to_cents_one "1 234.56" = some 123456 ∧
    series_to_cents_one "" = none ∧ centsField "" = 0 ∧
    series_to_cents_one "-" = none ∧ centsField "-" = 0 ∧
    series_to_cents_one "abc" = none ∧ centsField "abc" = 0 ∧
    (∀ d : Int × Nat, decCents d = quantizeHalfUp (decVal d * 100)) ∧
    (∀ v : String, series_to_cents_one v = none ∨ ∃ n, series_to_cents_one v = some n) := by
  refine ⟨by decide, by decide, by decide, by decide, by decide, by decide, by decide,
    by decide, by decide, decCents_eq_quantize, fun v => ?_⟩
  cases h : series_to_cents_one v with
  | none => exact Or.inl rfl
  | some n => exact Or.inr ⟨n, rfl⟩

/-- C9: hierarchy splitting maps the two spec examples to the documented
Program/Industry/Channel triples; in general segments 0, 1, 2 of the
delimiter split (after the `astype(str)` missing-value cleanup) become the
three levels, any missing segment yielding the empty string (total
function, never an error). -/
theorem C9_hierarchy_split :
    split_group_path "BV / Nordcloud / AWS / Traffic" = ("BV", "Nordcloud", "AWS") ∧
    split_group_path "AO | General Funnel | Awareness" = ("AO", "General Funnel", "Awareness") ∧
    (∀ s : String, split_group_path s =
      ((splitSegs (cleanGroupPath s)).getD 0 "", (splitSegs (cleanGroupPath s)).getD 1 "",
        (splitSegs (cleanGroupPath s)).getD 2 "")) ∧
    split_group_path "AO" = ("AO", "", "") ∧
    split_group_path "" = ("", "", "") :=
  ⟨by decide, by decide, fun _ => rfl, by decide, by decide⟩

/-- C6: the code's expected-spend equals the spec's single-rounding formula
with zero guard; the spec's 20-day scenario (start = today - 9,
end = today + 10, no pauses) yields `active_days_total = 20`,
`elapsed_active_days = 10`, and a 10000-cent budget prorates to exactly
5000 cents. -/
theorem C6_expected_spend_prorate :
    (∀ total elapsed ad : Int,
        expected_spend_to_date_cents total elapsed ad = spec_expected_spend total elapsed ad) ∧
    (∀ t : Int,
        (computeDayMath (t - 9) (t + 10) t 0 0).active_days_total = 20 ∧
        (computeDayMath (t - 9) (t + 10) t 0 0).elapsed_active_days = 10) ∧
    expected_spend_to_date_cents 10000 10 20 = 5000 := by
  refine ⟨fun total elapsed ad => ?_, fun t => ?_, ?_⟩
  · unfold expected_spend_to_date_cents spec_expected_spend
    rw [quantizeHalfUp_eq_spec]
  · unfold computeDayMath
    refine ⟨?_, ?_⟩ <;> simp
  · unfold expected_spend_to_date_cents quantizeHalfUp
    norm_num

/-- C7: `required_daily` equals `remaining_budget_cents / 100 /
remaining_active_days` rounded half-up to two decimals when
`remaining_active_days > 0`, and is the absent value (`none`, not zero, not
an error) whenever `remaining_active_days <= 0`. -/
theorem C7_required_daily (cents rad : Int) :
    required_daily cents rad =
      if rad ≤ 0 then none
      else some (spec_round2 ((cents : ℚ) / 100 / (rad : ℚ))) := by
  unfold required_daily spec_round2 round2
  rw [quantizeHalfUp_eq_spec]

/-- C8: `min_daily_violation` is true exactly when the channel has a
configured floor, `required_daily` is defined, and the required daily is
strictly below the floor; in the spec's LinkedIn scenarios
(remaining 500 cents over 100 days → 0.05, and 2000 cents → 0.20) the
violation flag is true under the 10.00 floor. -/
theorem C8_min_daily_violation :
    (∀ (channel : String) (cents rad : Int),
        min_daily_violation channel (required_daily cents rad) = true ↔
          ∃ md r, MIN_DAILY_BY_CHANNEL channel = some md ∧
            required_daily cents rad = some r ∧ r < md) ∧
    required_daily 500 100 = some (1 / 20) ∧
    min_daily_violation "LinkedIn" (required_daily 500 100) = true ∧
    required_daily 2000 100 = some (1 / 5) ∧
    min_daily_violation "LinkedIn" (required_daily 2000 100) = true := by
  have h500 : required_daily 500 100 = some (1 / 20 : ℚ) := by
    unfold required_daily round2 quantizeHalfUp
    norm_num
  have h2000 : required_daily 2000 100 = some (1 / 5 : ℚ) := by
    unfold required_daily round2 quantizeHalfUp
    norm_num
  refine ⟨fun channel cents rad => ?_, h500, ?_, h2000, ?_⟩
  · unfold min_daily_violation
    cases hmd : MIN_DAILY_BY_CHANNEL channel with
    | none => simp [hmd]
    | some md =>
      cases hr : required_daily cents rad with
      | none => simp [hmd, hr]
      | some r => simp [hmd, hr]
  · rw [h500]
    unfold min_daily_violation MIN_DAILY_BY_CHANNEL
    norm_num
  · rw [h2000]
    unfold min_daily_violation MIN_DAILY_BY_CHANNEL
    norm_num

/-- C1: every aggregate row's money-cents fields are the exact integer sums
of the corresponding fields over the leaf rows of its (Program, Industry,
Channel, Campaign) group — integer addition only, no rounding introduced by
aggregation. -/
theorem C1_aggregate_exact_sums (rows : List LeafRow) (a : AggRow)
    (ha : a ∈ aggregate_to_campaign rows) :
    a.total_budget_cents = ((rows.filter (fun r => decide (r.Program = a.Program ∧
        r.Industry = a.Industry ∧ r.Channel = a.Channel ∧ r.Campaign = a.Campaign))).map
        (fun r => r.total_budget_cents)).sum ∧
    a.spent_to_date_cents = ((rows.filter (fun r => decide (r.Program = a.Program ∧
        r.Industry = a.Industry ∧ r.Channel = a.Channel ∧ r.Campaign = a.Campaign))).map
        (fun r => r.spent_to_date_cents)).sum ∧
    a.remaining_budget_cents = ((rows.filter (fun r => decide (r.Program = a.Program ∧
        r.Industry = a.Industry ∧ r.Channel = a.Channel ∧ r.Campaign = a.Campaign))).map
        (fun r => r.remaining_budget_cents)).sum ∧
    a.expected_spend_to_date_cents = ((rows.filter (fun r => decide (r.Program = a.Program ∧
        r.Industry = a.Industry ∧ r.Channel = a.Channel ∧ r.Campaign = a.Campaign))).map
        (fun r => r.expected_spend_to_date_cents)).sum := by
  obtain ⟨k, hk, rfl⟩ := List.mem_map.1 ha
  obtain ⟨p, i, c, g⟩ := k
  have hpred : ∀ r : LeafRow,
      decide (r.Program = (mkAggRow rows (p, i, c, g)).Program ∧
        r.Industry = (mkAggRow rows (p, i, c, g)).Industry ∧
        r.Channel = (mkAggRow rows (p, i, c, g)).Channel ∧
        r.Campaign = (mkAggRow rows (p, i, c, g)).Campaign) =
      decide (groupKey r = (p, i, c, g)) := by
    intro r
    rw [decide_eq_decide]
    simp [mkAggRow, groupKey]
  refine ⟨?_, ?_, ?_, ?_⟩ <;> simp only [hpred] <;> rfl

/-- C1 (witness): the theorem applied to a concrete aggregate row of a
concrete leaf table. -/
theorem C1_witness :
    exampleAggRow ∈ aggregate_to_campaign exampleLeafRows ∧
    exampleAggRow.total_budget_cents =
      ((exampleLeafRows.filter (fun r => decide (r.Program = exampleAggRow.Program ∧
          r.Industry = exampleAggRow.Industry ∧ r.Channel = exampleAggRow.Channel ∧
          r.Campaign = exampleAggRow.Campaign))).map
          (fun r => r.total_budget_cents)).sum :=
  ⟨by decide, (C1_aggregate_exact_sums exampleLeafRows exampleAggRow (by decide)).1⟩

/-! ### Lemmas for the idempotence of column-name normalization -/

theorem mem_replaceArrow {c : Char} {l : List Char} (h : c ∈ replaceArrow l) :
    c = 't' ∨ c = 'o' ∨ c ∈ l := by
  induction l with
  | nil => simp [replaceArrow] at h
  | cons d ds ih =>
    by_cases hd : d == '→'
    · rw [replaceArrow, if_pos hd] at h
      rcases List.mem_cons.mp h with rfl | h2
      · exact Or.inl rfl
      rcases List.mem_cons.mp h2 with rfl | h3
      · exact Or.inr (Or.inl rfl)
      rcases ih h3 with h4 | h4 | h4
      · exact Or.inl h4
      · exact Or.inr (Or.inl h4)
      · exact Or.inr (Or.inr (List.mem_cons_of_mem _ h4))
    · rw [replaceArrow, if_neg hd] at h
      rcases List.mem_cons.mp h with rfl | h2
      · exact Or.inr (Or.inr (List.mem_cons_self _ _))
      rcases ih h2 with h4 | h4 | h4
      · exact Or.inl h4
      · exact Or.inr (Or.inl h4)
      · exact Or.inr (Or.inr (List.mem_cons_of_mem _ h4))

theorem mem_collapseNW {c : Char} :
    ∀ (b : Bool) (l : List Char), c ∈ collapseNW b l →
      c = '_' ∨ (c ∈ l ∧ isWordChar c = true) := by
  intro b l
  induction l generalizing b with
  | nil => intro h; cases b <;> simp [collapseNW] at h
  | cons d ds ih =>
    intro h
    by_cases hw : isWordChar d
    · have h2 : c = d ∨ c ∈ collapseNW false ds := by
        cases b <;> rw [collapseNW, if_pos hw] at h <;> exact List.mem_cons.mp h
      rcases h2 with rfl | h3
      · exact Or.inr ⟨List.mem_cons_self _ _, hw⟩
      rcases ih false h3 with h4 | ⟨h5, h6⟩
      · exact Or.inl h4
      · exact Or.inr ⟨List.mem_cons_of_mem _ h5, h6⟩
    · have h2 : c = '_' ∨ c ∈ collapseNW true ds := by
        cases b <;> rw [collapseNW, if_neg hw] at h
        · exact List.mem_cons.mp h
        · exact Or.inr h
      rcases h2 with rfl | h3
      · exact Or.inl rfl
      rcases ih true h3 with h4 | ⟨h5, h6⟩
      · exact Or.inl h4
      · exact Or.inr ⟨List.mem_cons_of_mem _ h5, h6⟩

theorem mem_collapseU {c : Char} :
    ∀ (b : Bool) (l : List Char), c ∈ collapseU b l → c ∈ l := by
  intro b l
  induction l generalizing b with
  | nil => intro h; cases b <;> simp [collapseU] at h
  | cons d ds ih =>
    intro h
    by_cases hd : d = '_'
    · subst hd
      cases b <;> rw [collapseU, if_pos rfl] at h
      · rcases List.mem_cons.mp h with rfl | h2
        · exact List.mem_cons_self _ _
        · exact List.mem_cons_of_mem _ (ih true h2)
      · exact List.mem_cons_of_mem _ (ih true h)
    · have h2 : c = d ∨ c ∈ collapseU false ds := by
        cases b <;> rw [collapseU, if_neg hd] at h <;> exact List.mem_cons.mp h
      rcases h2 with rfl | h3
      · exact List.mem_cons_self _ _
      · exact List.mem_cons_of_mem _ (ih false h3)

theorem mem_stripUnderscores {c : Char} {l : List Char}
    (h : c ∈ stripUnderscores l) : c ∈ l := by
  unfold stripUnderscores at h
  have hp := List.rdropWhile_prefix (fun c => c == '_') (l.dropWhile (fun c => c == '_'))
  have h1 : c ∈ (l.dropWhile (fun c => c == '_')) := hp.sublist.subset h
  exact (List.dropWhile_suffix _).sublist.subset h1

theorem word_not_whitespace {c : Char} (h : isWordChar c = true) :
    c.isWhitespace = false := by
  cases hw : c.isWhitespace
  · rfl
  · exfalso
    have hdis : ((c = ' ' ∨ c = '\t') ∨ c = '\x0d') ∨ c = '\n' := by
      simpa [Char.isWhitespace] using hw
    rcases hdis with ((rfl | rfl) | rfl) | rfl <;> exact absurd h (by decide)

theorem pyStripChars_eq_self {l : List Char}
    (h : ∀ c ∈ l, c.isWhitespace = false) : pyStripChars l = l := by
  unfold pyStripChars
  have h1 : l.dropWhile Char.isWhitespace = l := by
    apply List.dropWhile_eq_self_iff.mpr
    intro hl
    simp [h _ (List.getElem_mem hl)]
  rw [h1]
  apply List.rdropWhile_eq_self_iff.mpr
  intro hl
  simp [h _ (List.getLast_mem hl)]

theorem map_lowerChar_eq_self {l : List Char}
    (h : ∀ c ∈ l, lowerChar c = c) : l.map lowerChar = l := by
  induction l with
  | nil => rfl
  | cons d ds ih =>
    simp only [List.map_cons, h d (List.mem_cons_self _ _),
      ih (fun c hc => h c (List.mem_cons_of_mem _ hc)), List.cons.injEq, and_self]

theorem replaceArrow_eq_self {l : List Char} (h : '→' ∉ l) : replaceArrow l = l := by
  induction l with
  | nil => rfl
  | cons d ds ih =>
    have hd : ¬(d == '→') = true := by
      simp only [beq_iff_eq]
      intro hdd
      exact h (hdd ▸ List.mem_cons_self _ _)
    rw [replaceArrow, if_neg hd, ih (fun hm => h (List.mem_cons_of_mem _ hm))]

theorem collapseNW_eq_self (b : Bool) {l : List Char}
    (h : ∀ c ∈ l, isWordChar c = true) : collapseNW b l = l := by
  induction l generalizing b with
  | nil => cases b <;> rfl
  | cons d ds ih =>
    have hw : isWordChar d = true := h d (List.mem_cons_self _ _)
    have htl : collapseNW false ds = ds := ih false (fun c hc => h c (List.mem_cons_of_mem _ hc))
    cases b <;> rw [collapseNW, if_pos hw, htl]

theorem collapseU_chain :
    ∀ l : List Char, List.Chain' notBothUnd (collapseU false l) ∧
      List.Chain' notBothUnd (collapseU true l) ∧
      ∀ c, (collapseU true l).head? = some c → c ≠ '_' := by
  intro l
  induction l with
  | nil => exact ⟨List.chain'_nil, List.chain'_nil, by intro c hc; simp [collapseU] at hc⟩
  | cons d ds ih =>
    obtain ⟨ih1, ih2, ih3⟩ := ih
    by_cases hd : d = '_'
    · subst hd
      refine ⟨?_, ?_, ?_⟩
      · rw [collapseU, if_pos rfl]
        apply List.chain'_cons'.mpr
        refine ⟨?_, ih2⟩
        intro y hy hcon
        exact (ih3 y hy) hcon.2
      · rw [collapseU, if_pos rfl]
        exact ih2
      · rw [collapseU, if_pos rfl]
        exact ih3
    · refine ⟨?_, ?_, ?_⟩
      · rw [collapseU, if_neg hd]
        exact List.chain'_cons'.mpr ⟨fun y _ hcon => hd hcon.1, ih1⟩
      · rw [collapseU, if_neg hd]
        exact List.chain'_cons'.mpr ⟨fun y _ hcon => hd hcon.1, ih1⟩
      · rw [collapseU, if_neg hd]
        intro c hc
        rw [List.head?_cons, Option.some.injEq] at hc
        exact hc ▸ hd

theorem collapseU_eq_self : ∀ l : List Char, List.Chain' notBothUnd l →
    collapseU false l = l := by
  intro l
  induction l with
  | nil => intro; rfl
  | cons d ds ih =>
    intro h
    by_cases hd : d = '_'
    · subst hd
      rw [collapseU, if_pos rfl]
      cases ds with
      | nil => rfl
      | cons e es =>
        have hr := (List.chain'_cons.mp h).1
        have he : e ≠ '_' := fun hee => hr ⟨rfl, hee⟩
        have htl : List.Chain' notBothUnd (e :: es) := (List.chain'_cons.mp h).2
        have hih := ih htl
        rw [collapseU, if_neg he] at hih
        have hes : collapseU false es = es := (List.cons.injEq _ _ _ _).mp hih |>.2
        rw [collapseU, if_neg he, hes]
    · have htl : List.Chain' notBothUnd ds := h.tail
      rw [collapseU, if_neg hd, ih htl]

theorem chain'_stripUnderscores {l : List Char}
    (h : List.Chain' notBothUnd l) :
    List.Chain' notBothUnd (stripUnderscores l) := by
  have h1 : List.Chain' notBothUnd (l.dropWhile (fun c => c == '_')) :=
    h.suffix (List.dropWhile_suffix _)
  have hp := List.rdropWhile_prefix (fun c => c == '_') (l.dropWhile (fun c => c == '_'))
  exact List.Chain'.prefix h1 hp

theorem dropWhile_head_false {p : Char → Bool} {l cs : List Char} {c : Char}
    (h : l.dropWhile p = c :: cs) : p c = false := by
  induction l with
  | nil => simp [List.dropWhile] at h
  | cons d ds ih =>
    rw [List.dropWhile_cons] at h
    by_cases hd : p d
    · rw [if_pos hd] at h
      exact ih h
    · rw [if_neg hd] at h
      injection h with h1 _
      subst h1
      exact Bool.eq_false_iff.mpr hd

theorem stripUnderscores_idem (l : List Char) :
    stripUnderscores (stripUnderscores l) = stripUnderscores l := by
  unfold stripUnderscores
  have hv : (((l.dropWhile (fun c => c == '_')).rdropWhile
      (fun c => c == '_')).dropWhile (fun c => c == '_')) =
      ((l.dropWhile (fun c => c == '_')).rdropWhile (fun c => c == '_')) := by
    cases hv0 : (l.dropWhile (fun c => c == '_')).rdropWhile (fun c => c == '_') with
    | nil => simp
    | cons c cs =>
      apply List.dropWhile_eq_self_iff.mpr
      intro hl
      have hp0 := List.rdropWhile_prefix (fun c => c == '_') (l.dropWhile (fun c => c == '_'))
      have hpre : (c :: cs) <+: l.dropWhile (fun c => c == '_') := hv0 ▸ hp0
      obtain ⟨t, ht⟩ := hpre
      have heq : l.dropWhile (fun c => c == '_') = c :: (cs ++ t) := by
        rw [← ht, List.cons_append]
      have hc := dropWhile_head_false heq
      simpa using hc
  rw [hv, List.rdropWhile_idempotent]

theorem normChars_idem (l : List Char) : normChars (normChars l) = normChars l := by
  have hclean : ∀ c ∈ normChars l, isWordChar c = true ∧ lowerChar c = c := by
    intro c hc
    unfold normChars at hc
    have hcm := mem_collapseU false _ (mem_stripUnderscores hc)
    rcases mem_collapseNW false _ hcm with rfl | ⟨hcw, hword⟩
    · exact ⟨by decide, by decide⟩
    refine ⟨hword, ?_⟩
    rcases mem_replaceArrow hcw with rfl | rfl | hmem
    · decide
    · decide
    · obtain ⟨c', _, rfl⟩ := List.mem_map.mp hmem
      exact lowerChar_lowerChar c'
  have harrow : '→' ∉ normChars l := by
    intro hmem
    exact absurd (hclean '→' hmem).1 (by decide)
  conv_lhs => rw [normChars]
  rw [pyStripChars_eq_self (fun c hc => word_not_whitespace (hclean c hc).1)]
  rw [map_lowerChar_eq_self (fun c hc => (hclean c hc).2)]
  rw [replaceArrow_eq_self harrow]
  rw [collapseNW_eq_self false (fun c hc => (hclean c hc).1)]
  have hchain : List.Chain' notBothUnd (normChars l) := by
    unfold normChars
    exact chain'_stripUnderscores (collapseU_chain _).1
  rw [collapseU_eq_self _ hchain]
  conv_lhs => rw [show normChars l = stripUnderscores (collapseU false (collapseNW false
    (replaceArrow ((pyStripChars l).map lowerChar)))) from rfl]
  rw [stripUnderscores_idem]
  rfl

/-- C10: column-name normalization is idempotent — re-normalizing an
already-normalized name never changes it. -/
theorem C10_normalize_colname_idempotent (s : String) :
    normalize_colname (normalize_colname s) = normalize_colname s := by
  unfold normalize_colname
  exact congrArg String.mk (normChars_idem s.data)

end StreamlitApp
